import Mathlib

/-!
Verification of the OCI user policy analyzer (`oci-policy-analyzer.py`).

The Python source is shallowly embedded.  Statements and identifiers are
`String` / `List Char`; the OCI identity client is an abstract `Gateway`
record of fallible operations (`Except String`); the compartment-name
cache of the analyzer object is an association list threaded explicitly
through the functions, together with a counter recording how many times
the gateway's compartment-name lookup (`identity_client.get_compartment`)
has been invoked.  Printing is modelled only where a claim depends on it:
the per-compartment policy-fetch warning lines are collected in a list.
-/

set_option maxHeartbeats 1000000

namespace OCIPolicyAnalyzer

/-! ## String primitives (Python `str.lower`, `in`) -/

/-- Python `str.lower`, on the character list of a string. -/
def lowerL (l : List Char) : List Char := l.map Char.toLower

/-- Helper for Python `pat in hay`: does `pat` start `hay`? -/
def isPrefixList : List Char → List Char → Bool
  | [], _ => true
  | _ :: _, [] => false
  | p :: ps, c :: cs => p == c && isPrefixList ps cs

/-- Python substring containment `pat in hay` (first argument is the
haystack, second the pattern). -/
def containsSub : List Char → List Char → Bool
  | [], pat => pat.isEmpty
  | c :: cs, pat => isPrefixList pat (c :: cs) || containsSub cs pat

/-- The single-quote character, written by code point. -/
def squote : Char := Char.ofNat 39

/-- The double-quote character, written by code point. -/
def dquote : Char := Char.ofNat 34

/-! ## Statement relevance matcher (`filter_policies_for_groups`, inner loop) -/

/-- The three surface forms built for one (already lower-cased) group
name in `filter_policies_for_groups`: `group <name>`, `group '<name>'`
and `group "<name>"`. -/
def group_patterns (g : List Char) : List (List Char) :=
  ["group ".data ++ g,
   "group ".data ++ squote :: (g ++ [squote]),
   "group ".data ++ dquote :: (g ++ [dquote])]

/-- The relevance test of the matcher loop inside
`filter_policies_for_groups`: the statement is lower-cased once, and for
each group name the three patterns are tested for substring containment;
the Python `break` on the first hit is the short-circuit of `any`. -/
def statementMentionsGroup (statement : String) (group_names : List String) : Bool :=
  let statement_lower := lowerL statement.data
  group_names.any fun group_name =>
    (group_patterns (lowerL group_name.data)).any fun pattern =>
      containsSub statement_lower pattern

theorem isPrefixList_iff (p h : List Char) :
    isPrefixList p h = true ↔ ∃ r, h = p ++ r := by
  induction p generalizing h with
  | nil => simp [isPrefixList]
  | cons a ps ih =>
    cases h with
    | nil => simp [isPrefixList]
    | cons c cs =>
      simp only [isPrefixList, Bool.and_eq_true, beq_iff_eq, ih, List.cons_append,
        List.cons.injEq]
      constructor
      · rintro ⟨rfl, r, rfl⟩
        exact ⟨r, rfl, rfl⟩
      · rintro ⟨r, rfl, rfl⟩
        exact ⟨rfl, r, rfl⟩

theorem containsSub_iff (h p : List Char) :
    containsSub h p = true ↔ ∃ l r, h = l ++ p ++ r := by
  induction h with
  | nil =>
    cases p with
    | nil => simp [containsSub]
    | cons x xs => simp [containsSub]
  | cons c cs ih =>
    simp only [containsSub, Bool.or_eq_true, isPrefixList_iff, ih]
    constructor
    · rintro (⟨r, hr⟩ | ⟨l, r, rfl⟩)
      · exact ⟨[], r, by simp [hr]⟩
      · exact ⟨c :: l, r, rfl⟩
    · rintro ⟨l, r, hr⟩
      cases l with
      | nil =>
        exact Or.inl ⟨r, by simpa using hr⟩
      | cons x xs =>
        simp only [List.cons_append, List.cons.injEq] at hr
        obtain ⟨rfl, hr⟩ := hr
        exact Or.inr ⟨xs, r, hr⟩

/-- C1: the matcher loop classifies a statement as relevant iff the
lower-cased statement contains, for at least one group name in the set,
one of the three substrings `group <lower(g)>`, `group '<lower(g)>'`,
`group "<lower(g)>"`; with an empty group set no statement is relevant. -/
theorem matcher_relevant_iff (S : String) (G : List String) :
    (statementMentionsGroup S G = true ↔
      ∃ g ∈ G, ∃ p ∈ group_patterns (lowerL g.data),
        ∃ l r, lowerL S.data = l ++ p ++ r) ∧
    statementMentionsGroup S [] = false := by
  constructor
  · simp [statementMentionsGroup, List.any_eq_true, containsSub_iff]
  · simp [statementMentionsGroup]

/-! ## Data model and gateway -/

/-- A group record (`oci.identity.models.Group`, the fields used). -/
structure Group where
  id : String
  name : String
deriving DecidableEq

/-- A policy record (`oci.identity.models.Policy`, the fields used). -/
structure Policy where
  name : String
  compartment_id : String
  statements : List String
deriving DecidableEq

/-- The identity client operations consumed by the analyzer, each
fallible (a raised exception is `Except.error`).  `list_compartments`
yields the compartment ids (only `comp.id` is read by the source). -/
structure Gateway where
  tenancy_id : String
  get_compartment : String → Except String String
  list_compartments : Except String (List String)
  list_user_group_memberships : String → Except String (List String)
  get_group : String → Except String Group
  list_policies : String → Except String (List Policy)

/-! ## Compartment name resolver (`get_compartment_name`) -/

/-- Lookup in an association list, modelling Python `key in dict` /
`dict[key]` (keys are unique in every dict the analyzer builds). -/
def dictFind {α β : Type} [DecidableEq α] : List (α × β) → α → Option β
  | [], _ => none
  | (k, v) :: rest, k' => if k = k' then some v else dictFind rest k'

/-- Python `dict[key] = value`: overwrite in place if present, else
append at the end (insertion order). -/
def dictInsert {α β : Type} [DecidableEq α] : List (α × β) → α → β → List (α × β)
  | [], k, v => [(k, v)]
  | (k', v') :: rest, k, v =>
    if k' = k then (k, v) :: rest else (k', v') :: dictInsert rest k v

/-- The mutable state of the analyzer object: the compartment-name cache
`self.compartment_cache`, plus a counter of gateway
`get_compartment` invocations used to express the caching claims. -/
structure ResolverState where
  cache : List (String × String)
  calls : Nat
deriving DecidableEq

/-- `get_compartment_name`: cached compartment-name resolution.  The
tenancy root resolves to the literal `"root"`; otherwise the gateway is
queried and the result cached; on gateway failure the raw identifier is
returned as fallback and nothing is cached (the `except` branch). -/
def get_compartment_name (gw : Gateway) (st : ResolverState) (compartment_id : String) :
    ResolverState × String :=
  match dictFind st.cache compartment_id with
  | some name => (st, name)
  | none =>
    if compartment_id = gw.tenancy_id then
      ({ cache := dictInsert st.cache compartment_id "root", calls := st.calls }, "root")
    else
      match gw.get_compartment compartment_id with
      | .ok name =>
        ({ cache := dictInsert st.cache compartment_id name, calls := st.calls + 1 }, name)
      | .error _ => ({ cache := st.cache, calls := st.calls + 1 }, compartment_id)

/-- `k` successive resolutions of the same identifier, keeping only the
state (used to express "invokes the gateway on every call"). -/
def resolve_repeat (gw : Gateway) (compartment_id : String) : Nat → ResolverState → ResolverState
  | 0, st => st
  | k + 1, st => resolve_repeat gw compartment_id k (get_compartment_name gw st compartment_id).1

theorem dictFind_insert_self {α β : Type} [DecidableEq α] (d : List (α × β)) (k : α) (v : β) :
    dictFind (dictInsert d k v) k = some v := by
  induction d with
  | nil => simp [dictFind, dictInsert]
  | cons e rest ih =>
    obtain ⟨k', v'⟩ := e
    by_cases h : k' = k
    · subst h
      simp [dictFind, dictInsert]
    · simp [dictFind, dictInsert, h, ih]

theorem dictFind_insert_ne {α β : Type} [DecidableEq α] (d : List (α × β)) (k k' : α) (v : β)
    (h : k ≠ k') : dictFind (dictInsert d k v) k' = dictFind d k' := by
  induction d with
  | nil => simp [dictFind, dictInsert, h]
  | cons e rest ih =>
    obtain ⟨k₀, v₀⟩ := e
    by_cases h0 : k₀ = k
    · subst h0
      simp [dictFind, dictInsert, h]
    · simp only [dictInsert, if_neg h0, dictFind]
      by_cases h1 : k₀ = k'
      · simp [h1]
      · simp [h1, ih]

theorem get_compartment_name_cached (gw : Gateway) (st : ResolverState) (cid n : String)
    (h : dictFind st.cache cid = some n) :
    get_compartment_name gw st cid = (st, n) := by
  simp [get_compartment_name, h]

theorem get_compartment_name_root (gw : Gateway) (st : ResolverState)
    (h : dictFind st.cache gw.tenancy_id = none) :
    get_compartment_name gw st gw.tenancy_id =
      ({ cache := dictInsert st.cache gw.tenancy_id "root", calls := st.calls }, "root") := by
  simp [get_compartment_name, h]

theorem get_compartment_name_ok (gw : Gateway) (st : ResolverState) (cid n : String)
    (h : dictFind st.cache cid = none) (hne : cid ≠ gw.tenancy_id)
    (hok : gw.get_compartment cid = .ok n) :
    get_compartment_name gw st cid =
      ({ cache := dictInsert st.cache cid n, calls := st.calls + 1 }, n) := by
  simp [get_compartment_name, h, hne, hok]

theorem get_compartment_name_err (gw : Gateway) (st : ResolverState) (cid e : String)
    (h : dictFind st.cache cid = none) (hne : cid ≠ gw.tenancy_id)
    (herr : gw.get_compartment cid = .error e) :
    get_compartment_name gw st cid = ({ cache := st.cache, calls := st.calls + 1 }, cid) := by
  simp [get_compartment_name, h, hne, herr]

/-- C5: for a non-root identifier, two resolutions that both succeed
invoke the gateway at most once in total (the second is served from the
cache), while for an identifier whose lookup fails every time each of
`k` successive resolutions invokes the gateway again and the fallback is
never stored in the cache. -/
theorem resolver_cache_idempotent (gw : Gateway) (st : ResolverState)
    (cid n e : String) (k : Nat) (hne : cid ≠ gw.tenancy_id) :
    (gw.get_compartment cid = .ok n →
      (get_compartment_name gw (get_compartment_name gw st cid).1 cid).1.calls ≤ st.calls + 1) ∧
    (gw.get_compartment cid = .error e → dictFind st.cache cid = none →
      resolve_repeat gw cid k st = ⟨st.cache, st.calls + k⟩) := by
  constructor
  · intro hok
    match hfind : dictFind st.cache cid with
    | some name =>
      simp only [get_compartment_name_cached gw st cid name hfind]
      exact Nat.le_succ _
    | none =>
      simp only [get_compartment_name_ok gw st cid n hfind hne hok]
      simp only [get_compartment_name_cached gw
        ({ cache := dictInsert st.cache cid n, calls := st.calls + 1 } : ResolverState) cid n
        (dictFind_insert_self st.cache cid n)]
      exact Nat.le_refl _
  · intro herr hfind
    induction k generalizing st with
    | zero => simp [resolve_repeat]
    | succ k ih =>
      have h2 := ih { cache := st.cache, calls := st.calls + 1 } hfind
      simp only [resolve_repeat, get_compartment_name_err gw st cid e hfind hne herr] at h2 ⊢
      rw [h2]
      simp [Nat.add_assoc, Nat.add_comm 1 k]

/-- A gateway whose every operation succeeds; the analyzed user belongs
to one group `Admins`. -/
def gwOk : Gateway where
  tenancy_id := "ocid1.tenancy.t"
  get_compartment := fun cid => if cid = "ocid1.compartment.fin" then .ok "Finance" else .ok "Other"
  list_compartments := .ok ["ocid1.compartment.ops", "ocid1.compartment.fin"]
  list_user_group_memberships := fun _ => .ok ["g1"]
  get_group := fun gid => if gid = "g1" then .ok ⟨"g1", "Admins"⟩ else .error "NotFound"
  list_policies := fun _ => .ok []

/-- A gateway whose compartment-name lookup always fails. -/
def gwFail : Gateway where
  tenancy_id := "ocid1.tenancy.t"
  get_compartment := fun _ => .error "ServiceUnavailable"
  list_compartments := .ok []
  list_user_group_memberships := fun _ => .ok []
  get_group := fun _ => .error "ServiceUnavailable"
  list_policies := fun _ => .ok []

theorem resolver_cache_idempotent_witness :
    ((get_compartment_name gwOk
        (get_compartment_name gwOk ⟨[], 0⟩ "ocid1.compartment.fin").1
        "ocid1.compartment.fin").1.calls ≤ 0 + 1) ∧
    resolve_repeat gwFail "ocid1.compartment.fin" 3 ⟨[], 0⟩ = ⟨[], 0 + 3⟩ :=
  ⟨(resolver_cache_idempotent gwOk ⟨[], 0⟩ "ocid1.compartment.fin" "Finance"
      "ServiceUnavailable" 3 (by decide)).1 (by rfl),
   (resolver_cache_idempotent gwFail ⟨[], 0⟩ "ocid1.compartment.fin" "Finance"
      "ServiceUnavailable" 3 (by decide)).2 (by rfl) (by rfl)⟩

/-- C6 counterexample: after a failed resolution of
`ocid1.compartment.x` nothing is cached, and a second resolution queries
the gateway again (two invocations, not one), contradicting "once an
identifier is resolved by the fallback path, the cached value is reused
with no re-querying". -/
theorem fallback_not_cached_cex :
    ((get_compartment_name gwFail ⟨[], 0⟩ "ocid1.compartment.x").1.cache = [] ∧
     (get_compartment_name gwFail ⟨[], 0⟩ "ocid1.compartment.x").1.calls = 1) ∧
    (get_compartment_name gwFail
      (get_compartment_name gwFail ⟨[], 0⟩ "ocid1.compartment.x").1
      "ocid1.compartment.x").1.calls = 2 := by
  decide

/-- C6 (amended): once an identifier has been resolved *successfully*
(so it is in the cache), the cached value is reused: resolving it again
returns the cached name with the state unchanged (no gateway call), and
the cache entry survives every later resolution of any identifier. -/
theorem cached_value_reused (gw : Gateway) (st : ResolverState) (cid n : String)
    (h : dictFind st.cache cid = some n) :
    get_compartment_name gw st cid = (st, n) ∧
    ∀ cid', dictFind ((get_compartment_name gw st cid').1).cache cid = some n := by
  refine ⟨get_compartment_name_cached gw st cid n h, ?_⟩
  intro cid'
  match hfind : dictFind st.cache cid' with
  | some name =>
    simp only [get_compartment_name_cached gw st cid' name hfind]
    exact h
  | none =>
    have hne : cid' ≠ cid := by
      intro hcc
      rw [hcc, h] at hfind
      exact Option.noConfusion hfind
    by_cases ht : cid' = gw.tenancy_id
    · subst ht
      simp only [get_compartment_name_root gw st hfind]
      rw [dictFind_insert_ne _ _ _ _ hne]
      exact h
    · match hgw : gw.get_compartment cid' with
      | .ok name =>
        simp only [get_compartment_name_ok gw st cid' name hfind ht hgw]
        rw [dictFind_insert_ne _ _ _ _ hne]
        exact h
      | .error msg =>
        simp only [get_compartment_name_err gw st cid' msg hfind ht hgw]
        exact h

theorem cached_value_reused_witness :
    get_compartment_name gwFail ⟨[("ocid1.compartment.x", "Ops")], 5⟩ "ocid1.compartment.x" =
      (⟨[("ocid1.compartment.x", "Ops")], 5⟩, "Ops") ∧
    ∀ cid', dictFind ((get_compartment_name gwFail ⟨[("ocid1.compartment.x", "Ops")], 5⟩
      cid').1).cache "ocid1.compartment.x" = some "Ops" :=
  cached_value_reused gwFail ⟨[("ocid1.compartment.x", "Ops")], 5⟩
    "ocid1.compartment.x" "Ops" (by rfl)

/-- The cache invariant maintained by every run: if the tenancy-root
identifier is cached at all, it is cached as `"root"` (the only write at
that key is the root branch of `get_compartment_name`). -/
def rootCacheOK (gw : Gateway) (st : ResolverState) : Prop :=
  ∀ v, dictFind st.cache gw.tenancy_id = some v → v = "root"

/-- C9: in every state whose cache satisfies the run invariant
`rootCacheOK`, resolving the tenancy-root identifier yields the literal
`"root"` without invoking the gateway; the invariant holds in the
initial (empty-cache) state and is preserved by every resolution. -/
theorem resolve_root_no_gateway (gw : Gateway) (st : ResolverState)
    (h : rootCacheOK gw st) :
    (get_compartment_name gw st gw.tenancy_id).2 = "root" ∧
    (get_compartment_name gw st gw.tenancy_id).1.calls = st.calls ∧
    rootCacheOK gw ⟨[], 0⟩ ∧
    ∀ cid, rootCacheOK gw (get_compartment_name gw st cid).1 := by
  have hroot : (get_compartment_name gw st gw.tenancy_id).2 = "root" ∧
      (get_compartment_name gw st gw.tenancy_id).1.calls = st.calls := by
    match hfind : dictFind st.cache gw.tenancy_id with
    | some v =>
      have hvr := h v hfind
      subst hvr
      simp only [get_compartment_name_cached gw st gw.tenancy_id "root" hfind]
      exact ⟨trivial, trivial⟩
    | none =>
      simp only [get_compartment_name_root gw st hfind]
      exact ⟨trivial, trivial⟩
  refine ⟨hroot.1, hroot.2, ?_, ?_⟩
  · intro v hv
    simp [dictFind] at hv
  · intro cid v hv
    match hfind : dictFind st.cache cid with
    | some name =>
      rw [get_compartment_name_cached gw st cid name hfind] at hv
      exact h v hv
    | none =>
      by_cases ht : cid = gw.tenancy_id
      · subst ht
        simp only [get_compartment_name_root gw st hfind] at hv
        rw [dictFind_insert_self] at hv
        exact (Option.some_inj.mp hv).symm
      · match hgw : gw.get_compartment cid with
        | .ok name =>
          simp only [get_compartment_name_ok gw st cid name hfind ht hgw] at hv
          rw [dictFind_insert_ne _ _ _ _ ht] at hv
          exact h v hv
        | .error msg =>
          simp only [get_compartment_name_err gw st cid msg hfind ht hgw] at hv
          exact h v hv

theorem resolve_root_no_gateway_witness :
    (get_compartment_name gwOk ⟨[], 0⟩ gwOk.tenancy_id).2 = "root" ∧
    (get_compartment_name gwOk ⟨[], 0⟩ gwOk.tenancy_id).1.calls = 0 :=
  ⟨(resolve_root_no_gateway gwOk ⟨[], 0⟩ (fun v hv => by simp [dictFind] at hv)).1,
   (resolve_root_no_gateway gwOk ⟨[], 0⟩ (fun v hv => by simp [dictFind] at hv)).2.1⟩

/-! ## Statement annotator (`translate_compartment_ids_in_statement`)

The regex `compartment\s+(ocid1\.compartment\.[a-zA-Z0-9._-]+)` compiled
with `re.IGNORECASE` is embedded directly: the flag makes both literal
parts case-insensitive, `\s+` and the character class are greedy and,
since their character sets are disjoint from the character that must
follow, maximal munch is exact.  `re.sub` is leftmost-first scanning
with continuation after the replaced match. -/

/-- Python `\s` (the ASCII range). -/
def isSpaceChar (c : Char) : Bool :=
  c == ' ' || c == Char.ofNat 9 || c == Char.ofNat 10 || c == Char.ofNat 13 ||
    c == Char.ofNat 11 || c == Char.ofNat 12

/-- The character class `[a-zA-Z0-9._-]`. -/
def isOcidChar (c : Char) : Bool :=
  c.isAlphanum || c == '.' || c == '_' || c == '-'

/-- Case-insensitive literal matcher: `pat` is given in lower case; on
success returns the consumed source characters (original case) and the
remaining characters. -/
def stripCI : List Char → List Char → Option (List Char × List Char)
  | [], cs => some ([], cs)
  | _ :: _, [] => none
  | p :: ps, c :: cs =>
    if c.toLower = p then
      match stripCI ps cs with
      | some (t, r) => some (c :: t, r)
      | none => none
    else none

/-- Split off the maximal run of characters satisfying `p`. -/
def spanP (p : Char → Bool) : List Char → List Char × List Char
  | [] => ([], [])
  | c :: cs =>
    if p c then
      let r := spanP p cs
      (c :: r.1, r.2)
    else ([], c :: cs)

/-- Greedy `+` on a character class: at least one character. -/
def takeWhile1 (p : Char → Bool) (cs : List Char) : Option (List Char × List Char) :=
  match spanP p cs with
  | ([], _) => none
  | (t, r) => some (t, r)

/-- The literal `compartment` of the pattern, lower case. -/
def kwCompartment : List Char := "compartment".data

/-- The literal `ocid1\.compartment\.` of the pattern, lower case. -/
def kwOcidPrefix : List Char := "ocid1.compartment.".data

/-- One attempt of the compiled pattern at the head of the character
list.  On success, returns the captured group `match.group(1)` (the
identifier as written in the source) and the characters after the
match. -/
def matchCompartmentAt (cs : List Char) : Option (List Char × List Char) :=
  match stripCI kwCompartment cs with
  | none => none
  | some (_, cs1) =>
    match takeWhile1 isSpaceChar cs1 with
    | none => none
    | some (_, cs2) =>
      match stripCI kwOcidPrefix cs2 with
      | none => none
      | some (t3, cs3) =>
        match takeWhile1 isOcidChar cs3 with
        | none => none
        | some (t4, cs4) => some (t3 ++ t4, cs4)

theorem stripCI_parts (pat : List Char) :
    ∀ cs t r, stripCI pat cs = some (t, r) → cs = t ++ r ∧ t.length = pat.length := by
  induction pat with
  | nil =>
    intro cs t r h
    simp only [stripCI, Option.some.injEq, Prod.mk.injEq] at h
    obtain ⟨rfl, rfl⟩ := h
    exact ⟨rfl, rfl⟩
  | cons p ps ih =>
    intro cs t r h
    cases cs with
    | nil => exact Option.noConfusion h
    | cons c cs' =>
      simp only [stripCI] at h
      by_cases hc : c.toLower = p
      · rw [if_pos hc] at h
        match hrec : stripCI ps cs' with
        | some (t', r') =>
          rw [hrec] at h
          simp only [Option.some.injEq, Prod.mk.injEq] at h
          obtain ⟨rfl, rfl⟩ := h
          obtain ⟨heq, hlen⟩ := ih cs' t' _ hrec
          constructor
          · rw [heq]
            rfl
          · simp [hlen]
        | none =>
          rw [hrec] at h
          exact Option.noConfusion h
      · rw [if_neg hc] at h
        exact Option.noConfusion h

theorem spanP_parts (p : Char → Bool) :
    ∀ cs, cs = (spanP p cs).1 ++ (spanP p cs).2 := by
  intro cs
  induction cs with
  | nil => rfl
  | cons c cs' ih =>
    simp only [spanP]
    by_cases hc : p c
    · rw [if_pos hc]
      simpa using ih
    · rw [if_neg hc]
      rfl

theorem takeWhile1_parts (p : Char → Bool) (cs t r : List Char)
    (h : takeWhile1 p cs = some (t, r)) : cs = t ++ r ∧ t ≠ [] := by
  simp only [takeWhile1] at h
  match hs : spanP p cs with
  | ([], r') =>
    rw [hs] at h
    exact Option.noConfusion h
  | (c :: t', r') =>
    rw [hs] at h
    simp only [Option.some.injEq, Prod.mk.injEq] at h
    obtain ⟨rfl, rfl⟩ := h
    have := spanP_parts p cs
    rw [hs] at this
    exact ⟨this, by simp⟩

theorem matchCompartmentAt_parts (cs cap rest : List Char)
    (h : matchCompartmentAt cs = some (cap, rest)) :
    rest.length + 12 ≤ cs.length := by
  match h1 : stripCI kwCompartment cs with
  | none =>
    simp only [matchCompartmentAt, h1] at h
    exact Option.noConfusion h
  | some (t1, cs1) =>
    match h2 : takeWhile1 isSpaceChar cs1 with
    | none =>
      simp only [matchCompartmentAt, h1, h2] at h
      exact Option.noConfusion h
    | some (t2, cs2) =>
      match h3 : stripCI kwOcidPrefix cs2 with
      | none =>
        simp only [matchCompartmentAt, h1, h2, h3] at h
        exact Option.noConfusion h
      | some (t3, cs3) =>
        match h4 : takeWhile1 isOcidChar cs3 with
        | none =>
          simp only [matchCompartmentAt, h1, h2, h3, h4] at h
          exact Option.noConfusion h
        | some (t4, cs4) =>
          simp only [matchCompartmentAt, h1, h2, h3, h4, Option.some.injEq,
            Prod.mk.injEq] at h
          obtain ⟨rfl, rfl⟩ := h
          obtain ⟨e1, l1⟩ := stripCI_parts _ cs t1 cs1 h1
          obtain ⟨e2, l2⟩ := takeWhile1_parts _ cs1 t2 cs2 h2
          obtain ⟨e3, l3⟩ := stripCI_parts _ cs2 t3 cs3 h3
          obtain ⟨e4, l4⟩ := takeWhile1_parts _ cs3 t4 cs4 h4
          subst e1 e2 e3 e4
          have ht2 : 1 ≤ t2.length := List.length_pos.mpr l2
          have ht4 : 1 ≤ t4.length := List.length_pos.mpr l4
          have c11 : kwCompartment.length = 11 := by decide
          have c18 : kwOcidPrefix.length = 18 := by decide
          rw [c11] at l1
          rw [c18] at l3
          simp only [List.length_append]
          omega

/-- Leftmost `re.sub` scan, structurally recursive on a fuel bound (the
fuel always dominates the length of the remaining input, so the bound is
never hit; see `translate_fuel_stable`). -/
def translate_fuel (gw : Gateway) : Nat → ResolverState → List Char → ResolverState × List Char
  | _, st, [] => (st, [])
  | 0, st, cs => (st, cs)
  | fuel + 1, st, c :: cs =>
    match matchCompartmentAt (c :: cs) with
    | some (cap, rest) =>
      let r1 := get_compartment_name gw st (String.mk cap)
      let r2 := translate_fuel gw fuel r1.1 rest
      (r2.1, "compartment ".data ++ (r1.2).data ++ r2.2)
    | none =>
      let r := translate_fuel gw fuel st cs
      (r.1, c :: r.2)

/-- The `re.sub` scan over a character list. -/
def translate_go (gw : Gateway) (st : ResolverState) (cs : List Char) :
    ResolverState × List Char :=
  translate_fuel gw cs.length st cs

/-- `translate_compartment_ids_in_statement`: every occurrence of the
pattern is replaced by `compartment <resolved-name>`, resolving the
captured identifier through `get_compartment_name`. -/
def translate_compartment_ids_in_statement (gw : Gateway) (st : ResolverState)
    (statement : String) : ResolverState × String :=
  let r := translate_go gw st statement.data
  (r.1, String.mk r.2)

theorem translate_fuel_nil (gw : Gateway) (fuel : Nat) (st : ResolverState) :
    translate_fuel gw fuel st [] = (st, []) := by
  cases fuel <;> rfl

theorem translate_fuel_stable (gw : Gateway) :
    ∀ f₁ f₂ st cs, cs.length ≤ f₁ → cs.length ≤ f₂ →
      translate_fuel gw f₁ st cs = translate_fuel gw f₂ st cs := by
  intro f₁
  induction f₁ with
  | zero =>
    intro f₂ st cs h1 h2
    have hnil : cs = [] := List.eq_nil_of_length_eq_zero (Nat.le_zero.mp h1)
    subst hnil
    rw [translate_fuel_nil, translate_fuel_nil]
  | succ f ih =>
    intro f₂ st cs h1 h2
    cases cs with
    | nil => rw [translate_fuel_nil, translate_fuel_nil]
    | cons c cs' =>
      cases f₂ with
      | zero => simp at h2
      | succ f₂' =>
        match hm : matchCompartmentAt (c :: cs') with
        | some (cap, rest) =>
          have hlt := matchCompartmentAt_parts (c :: cs') cap rest hm
          simp only [List.length_cons] at h1 h2 hlt
          simp only [translate_fuel, hm]
          rw [ih f₂' _ rest (by omega) (by omega)]
        | none =>
          simp only [List.length_cons] at h1 h2
          simp only [translate_fuel, hm]
          rw [ih f₂' st cs' (by omega) (by omega)]

theorem translate_go_cons_none (gw : Gateway) (st : ResolverState) (c : Char) (cs : List Char)
    (hm : matchCompartmentAt (c :: cs) = none) :
    translate_go gw st (c :: cs) =
      ((translate_go gw st cs).1, c :: (translate_go gw st cs).2) := by
  simp only [translate_go, List.length_cons, translate_fuel, hm]

theorem translate_go_cons_some (gw : Gateway) (st : ResolverState) (c : Char)
    (cs cap rest : List Char) (hm : matchCompartmentAt (c :: cs) = some (cap, rest)) :
    translate_go gw st (c :: cs) =
      ((translate_go gw (get_compartment_name gw st (String.mk cap)).1 rest).1,
       "compartment ".data ++ ((get_compartment_name gw st (String.mk cap)).2).data ++
       (translate_go gw (get_compartment_name gw st (String.mk cap)).1 rest).2) := by
  have hlt := matchCompartmentAt_parts (c :: cs) cap rest hm
  simp only [List.length_cons] at hlt
  simp only [translate_go, List.length_cons, translate_fuel, hm]
  rw [translate_fuel_stable gw cs.length rest.length _ rest (by omega) (Nat.le_refl _)]

theorem translate_go_id (gw : Gateway) (st : ResolverState) :
    ∀ cs, (∀ i, i < cs.length → matchCompartmentAt (cs.drop i) = none) →
      translate_go gw st cs = (st, cs) := by
  intro cs
  induction cs with
  | nil => intro _; rfl
  | cons c cs' ih =>
    intro h
    have h0 : matchCompartmentAt (c :: cs') = none := h 0 (by simp)
    rw [translate_go_cons_none gw st c cs' h0]
    rw [ih (fun i hi => by simpa using h (i + 1) (by simpa using Nat.succ_lt_succ hi))]

theorem translate_go_first (gw : Gateway) :
    ∀ (pre : List Char) (st : ResolverState) (suf cap rest : List Char),
      matchCompartmentAt suf = some (cap, rest) →
      (∀ i, i < pre.length → matchCompartmentAt (pre.drop i ++ suf) = none) →
      translate_go gw st (pre ++ suf) =
        ((translate_go gw (get_compartment_name gw st (String.mk cap)).1 rest).1,
         pre ++ "compartment ".data ++ ((get_compartment_name gw st (String.mk cap)).2).data ++
         (translate_go gw (get_compartment_name gw st (String.mk cap)).1 rest).2) := by
  intro pre
  induction pre with
  | nil =>
    intro st suf cap rest hm _
    cases suf with
    | nil =>
      rw [show matchCompartmentAt ([] : List Char) = none from by decide] at hm
      exact Option.noConfusion hm
    | cons c cs =>
      simpa using translate_go_cons_some gw st c cs cap rest hm
  | cons p pre' ih =>
    intro st suf cap rest hm hnone
    have h0 : matchCompartmentAt (p :: (pre' ++ suf)) = none := by
      simpa using hnone 0 (by simp)
    rw [show (p :: pre') ++ suf = p :: (pre' ++ suf) from rfl]
    rw [translate_go_cons_none gw st p (pre' ++ suf) h0]
    rw [ih st suf cap rest hm
      (fun i hi => by simpa using hnone (i + 1) (by simpa using Nat.succ_lt_succ hi))]
    simp

/-- C3: the annotator replaces each occurrence of the compiled pattern
by `compartment <resolved-name>`, resolving the captured identifier
through the resolver, substituting left to right and leaving all other
text unchanged; a statement with no occurrence is returned unchanged. -/
theorem annotate_replaces_matches (gw : Gateway) (st : ResolverState) (S : String)
    (pre suf cap rest : List Char) :
    ((∀ i, i < S.data.length → matchCompartmentAt (S.data.drop i) = none) →
      translate_compartment_ids_in_statement gw st S = (st, S)) ∧
    (S.data = pre ++ suf →
      matchCompartmentAt suf = some (cap, rest) →
      (∀ i, i < pre.length → matchCompartmentAt (pre.drop i ++ suf) = none) →
      translate_compartment_ids_in_statement gw st S =
        ((translate_go gw (get_compartment_name gw st (String.mk cap)).1 rest).1,
         String.mk (pre ++ "compartment ".data ++
           ((get_compartment_name gw st (String.mk cap)).2).data ++
           (translate_go gw (get_compartment_name gw st (String.mk cap)).1 rest).2))) := by
  constructor
  · intro h
    simp only [translate_compartment_ids_in_statement, translate_go_id gw st S.data h]
  · intro heq hm hnone
    simp only [translate_compartment_ids_in_statement, heq,
      translate_go_first gw pre st suf cap rest hm hnone]

theorem annotate_replaces_matches_witness :
    (translate_compartment_ids_in_statement gwOk ⟨[], 0⟩
        "allow group Admins to manage all-resources in tenancy" =
      (⟨[], 0⟩, "allow group Admins to manage all-resources in tenancy")) ∧
    (translate_compartment_ids_in_statement gwOk ⟨[], 0⟩
        "allow group a in compartment ocid1.compartment.abc end" =
      ((translate_go gwOk
          (get_compartment_name gwOk ⟨[], 0⟩ (String.mk "ocid1.compartment.abc".data)).1
          " end".data).1,
       String.mk ("allow group a in ".data ++ "compartment ".data ++
         ((get_compartment_name gwOk ⟨[], 0⟩ (String.mk "ocid1.compartment.abc".data)).2).data ++
         (translate_go gwOk
           (get_compartment_name gwOk ⟨[], 0⟩ (String.mk "ocid1.compartment.abc".data)).1
           " end".data).2))) :=
  ⟨(annotate_replaces_matches gwOk ⟨[], 0⟩
      "allow group Admins to manage all-resources in tenancy" [] [] [] []).1 (by decide),
   (annotate_replaces_matches gwOk ⟨[], 0⟩
      "allow group a in compartment ocid1.compartment.abc end"
      "allow group a in ".data "compartment ocid1.compartment.abc end".data
      "ocid1.compartment.abc".data " end".data).2 (by decide) (by decide) (by decide)⟩

/-! ## Case-insensitivity of the identifier prefix (claim C4) -/

/-- True iff the list is empty or its head fails `p` (the next character
cannot extend a greedy `+` run). -/
def headNot (p : Char → Bool) : List Char → Bool
  | [] => true
  | c :: _ => !p c

theorem stripCI_of_lower :
    ∀ (t pat r : List Char), lowerL t = pat → stripCI pat (t ++ r) = some (t, r) := by
  intro t
  induction t with
  | nil =>
    intro pat r h
    rw [← h]
    rfl
  | cons c cs ih =>
    intro pat r h
    rw [← h]
    simp only [lowerL, List.map_cons, List.cons_append, stripCI, if_pos rfl, List.append_eq]
    rw [show List.map Char.toLower cs = lowerL cs from rfl, ih (lowerL cs) r rfl]
    rw [if_pos trivial]

theorem spanP_all_append (p : Char → Bool) :
    ∀ (t r : List Char), (∀ c ∈ t, p c = true) → headNot p r = true →
      spanP p (t ++ r) = (t, r) := by
  intro t
  induction t with
  | nil =>
    intro r _ h2
    cases r with
    | nil => rfl
    | cons c r' =>
      simp only [headNot, Bool.not_eq_true'] at h2
      simp [spanP, h2]
  | cons c t' ih =>
    intro r h1 h2
    have hc : p c = true := h1 c (List.mem_cons_self c t')
    simp only [List.cons_append, spanP, if_pos hc, List.append_eq]
    rw [ih r (fun x hx => h1 x (List.mem_cons_of_mem c hx)) h2]

theorem takeWhile1_all (p : Char → Bool) (t r : List Char) (hne : t ≠ [])
    (h1 : ∀ c ∈ t, p c = true) (h2 : headNot p r = true) :
    takeWhile1 p (t ++ r) = some (t, r) := by
  cases t with
  | nil => exact absurd rfl hne
  | cons c t' =>
    simp only [takeWhile1, spanP_all_append p (c :: t') r h1 h2]

theorem isSpaceChar_false_of_lower_o (c : Char) (h : c.toLower = 'o') :
    isSpaceChar c = false := by
  cases hsp : isSpaceChar c
  · rfl
  · exfalso
    simp only [isSpaceChar, Bool.or_eq_true, beq_iff_eq] at hsp
    rcases hsp with ((((h1 | h1) | h1) | h1) | h1) | h1 <;> subst h1 <;> exact absurd h (by decide)

/-- C4 (amended): the `re.IGNORECASE` flag applies to the whole pattern,
so the `compartment` keyword *and* the `ocid1.compartment.` identifier
prefix are both matched case-insensitively: any case variant of the two
literals, followed by an identifier tail, is matched, with the identifier
captured as written in the source. -/
theorem annotate_pattern_ci (kw sp p idp rest : List Char)
    (hkw : lowerL kw = kwCompartment)
    (hsp : sp ≠ []) (hsp2 : ∀ c ∈ sp, isSpaceChar c = true)
    (hp : lowerL p = kwOcidPrefix)
    (hid : idp ≠ []) (hid2 : ∀ c ∈ idp, isOcidChar c = true)
    (hrest : headNot isOcidChar rest = true) :
    matchCompartmentAt (kw ++ sp ++ p ++ idp ++ rest) = some (p ++ idp, rest) := by
  have hpne : p ≠ [] := by
    intro hnil
    rw [hnil] at hp
    exact absurd hp (by decide)
  obtain ⟨c0, p', rfl⟩ : ∃ c0 p', p = c0 :: p' := by
    cases p with
    | nil => exact absurd rfl hpne
    | cons a b => exact ⟨a, b, rfl⟩
  have hc0 : c0.toLower = 'o' := by
    have hh := hp
    rw [show kwOcidPrefix = 'o' :: "cid1.compartment.".data from by decide] at hh
    simp only [lowerL, List.map_cons] at hh
    injection hh with h1 _
  have hsnot : headNot isSpaceChar ((c0 :: p') ++ (idp ++ rest)) = true := by
    simp only [List.cons_append, headNot, Bool.not_eq_true']
    exact isSpaceChar_false_of_lower_o c0 hc0
  have A1 := stripCI_of_lower kw kwCompartment (sp ++ ((c0 :: p') ++ (idp ++ rest))) hkw
  have A2 := takeWhile1_all isSpaceChar sp ((c0 :: p') ++ (idp ++ rest)) hsp hsp2 hsnot
  have A3 := stripCI_of_lower (c0 :: p') kwOcidPrefix (idp ++ rest) hp
  have A4 := takeWhile1_all isOcidChar idp rest hid hid2 hrest
  simp only [matchCompartmentAt, List.append_assoc, A1, A2, A3, A4]

theorem annotate_pattern_ci_witness :
    matchCompartmentAt ("Compartment".data ++ " ".data ++ "OCID1.COMPARTMENT.".data ++
      "abc".data ++ " x".data) = some ("OCID1.COMPARTMENT.".data ++ "abc".data, " x".data) :=
  annotate_pattern_ci "Compartment".data " ".data "OCID1.COMPARTMENT.".data "abc".data " x".data
    (by decide) (by decide) (by decide) (by decide) (by decide) (by decide) (by decide)

/-- C4 counterexample: an occurrence whose identifier prefix is upper
case, `compartment OCID1.COMPARTMENT.abc`, is *not* left unreplaced: the
annotator rewrites it (here to `compartment Other`), because the
case-insensitivity flag covers the identifier prefix too. -/
theorem annotate_uppercase_replaced_cex :
    (translate_compartment_ids_in_statement gwOk ⟨[], 0⟩
      "allow group Admins to read x in compartment OCID1.COMPARTMENT.abc").2 ≠
    "allow group Admins to read x in compartment OCID1.COMPARTMENT.abc" := by
  decide

/-! ## Policy aggregator (`analyze_user_policies` and its stages) -/

/-- `get_all_compartments`: the compartment-id list, or `[]` on gateway
failure (the error is printed and absorbed). -/
def get_all_compartments (gw : Gateway) : List String :=
  match gw.list_compartments with
  | .ok comps => comps
  | .error _ => []

/-- The `for group_id in group_ids` loop of `get_user_groups`: the first
raised error aborts the whole loop. -/
def mapExcept {A B : Type} (f : A -> Except String B) : List A -> Except String (List B)
  | [] => .ok []
  | a :: as =>
    match f a with
    | .error e => .error e
    | .ok b =>
      match mapExcept f as with
      | .error e => .error e
      | .ok bs => .ok (b :: bs)

/-- The body of the `try` block of `get_user_groups`: list the
memberships, then resolve each membership to a full group record. -/
def get_user_groups_body (gw : Gateway) (user_id : String) : Except String (List Group) :=
  match gw.list_user_group_memberships user_id with
  | .error e => .error e
  | .ok group_ids => mapExcept gw.get_group group_ids

/-- `get_user_groups`: any raised error is caught and the empty list is
returned (discarding any partially built `groups` list). -/
def get_user_groups (gw : Gateway) (user_id : String) : List Group :=
  match get_user_groups_body gw user_id with
  | .ok groups => groups
  | .error _ => []

/-- `get_policies_in_compartment`: the policy list plus the warning
lines printed by the `except` branch (empty list and one warning naming
the compartment on failure). -/
def get_policies_in_compartment (gw : Gateway) (compartment_id : String) :
    List Policy × List String :=
  match gw.list_policies compartment_id with
  | .ok policies => (policies, [])
  | .error e =>
    ([], ["Warning: Could not fetch policies in compartment " ++ compartment_id ++ ": " ++ e])

/-- The statement loop of `filter_policies_for_groups`: relevant
statements are annotated and recorded as
(policy name, compartment display name, annotated statement). -/
def filter_statements (gw : Gateway) (policy_name compartment_name : String)
    (group_names : List String) :
    ResolverState -> List String -> ResolverState × List (String × String × String)
  | st, [] => (st, [])
  | st, statement :: rest =>
    if statementMentionsGroup statement group_names then
      let r1 := translate_compartment_ids_in_statement gw st statement
      let r2 := filter_statements gw policy_name compartment_name group_names r1.1 rest
      (r2.1, (policy_name, compartment_name, r1.2) :: r2.2)
    else
      filter_statements gw policy_name compartment_name group_names st rest

/-- `filter_policies_for_groups`: per policy, the owning compartment
name is resolved first (populating the cache), then the statements are
filtered. -/
def filter_policies_for_groups (gw : Gateway) (group_names : List String) :
    ResolverState -> List Policy -> ResolverState × List (String × String × String)
  | st, [] => (st, [])
  | st, policy :: rest =>
    let r0 := get_compartment_name gw st policy.compartment_id
    let r1 := filter_statements gw policy.name r0.2 group_names r0.1 policy.statements
    let r2 := filter_policies_for_groups gw group_names r1.1 rest
    (r2.1, r1.2 ++ r2.2)

/-- The per-compartment scan loop of `analyze_user_policies`, also
collecting the policy-fetch warning lines. -/
def scan_compartments (gw : Gateway) (group_names : List String) :
    ResolverState -> List String ->
      ResolverState × List (String × String × String) × List String
  | st, [] => (st, [], [])
  | st, compartment_id :: rest =>
    let pr := get_policies_in_compartment gw compartment_id
    let r1 := filter_policies_for_groups gw group_names st pr.1
    let r2 := scan_compartments gw group_names r1.1 rest
    (r2.1, r1.2 ++ r2.2.1, pr.2 ++ r2.2.2)

/-- The grouping key of a relevant-statement record:
(policy name, compartment display name). -/
def recKey (r : String × String × String) : String × String := (r.1, r.2.1)

/-- One `policy_groups[(policy_name, compartment_name)].append(statement)`
step on the insertion-ordered dict: append to the existing entry, or add
a new key at the end. -/
def add_to_group :
    List ((String × String) × List String) -> (String × String) -> String ->
      List ((String × String) × List String)
  | [], k, s => [(k, [s])]
  | (k', vs) :: rest, k, s =>
    if k' = k then (k', vs ++ [s]) :: rest else (k', vs) :: add_to_group rest k s

/-- The `defaultdict(list)` grouping loop at the end of
`analyze_user_policies`. -/
def groupByKey (recs : List (String × String × String)) :
    List ((String × String) × List String) :=
  recs.foldl (fun acc r => add_to_group acc (recKey r) r.2.2) []

/-- Modelled from the spec: the keys of the report in first-seen order
("preserving first-seen compartment scan order"); used as the
specification side of the grouping claim. -/
def firstSeenKeys : List (String × String) -> List (String × String) -> List (String × String)
  | _, [] => []
  | seen, k :: ks =>
    if k ∈ seen then firstSeenKeys seen ks else k :: firstSeenKeys (k :: seen) ks

/-- Modelled from the spec: the ordered sequence of statement texts of
one report key ("within-policy statement order, no de-duplication"). -/
def statementsFor (recs : List (String × String × String)) (k : String × String) :
    List String :=
  recs.filterMap fun r => if recKey r = k then some r.2.2 else none

/-- The observable outcome of `analyze_user_policies`: the early
"no groups" return, the "no relevant statements" return, or the grouped
report. -/
inductive AnalysisResult where
  | noGroups : AnalysisResult
  | noRelevant : AnalysisResult
  | report : List ((String × String) × List String) -> AnalysisResult
deriving DecidableEq

/-- `analyze_user_policies`: fetch the groups (empty means the early
"no groups" return), list the compartments and append the tenancy root,
scan each compartment, and group the relevant statements.  The second
component collects the per-compartment policy-fetch warning lines. -/
def analyze_user_policies (gw : Gateway) (user_id : String) :
    AnalysisResult × List String :=
  let groups := get_user_groups gw user_id
  if groups.isEmpty then (.noGroups, [])
  else
    let group_names := groups.map Group.name
    let compartments := get_all_compartments gw
    let all_compartment_ids := compartments ++ [gw.tenancy_id]
    let r := scan_compartments gw group_names ⟨[], 0⟩ all_compartment_ids
    if r.2.1.isEmpty then (.noRelevant, r.2.2)
    else (.report (groupByKey r.2.1), r.2.2)

/-! ## Grouping (claim C8) -/

theorem dictFind_add_to_group (acc : List ((String × String) × List String))
    (k k' : String × String) (s : String) :
    dictFind (add_to_group acc k s) k' =
      if k = k' then
        match dictFind acc k with
        | some vs => some (vs ++ [s])
        | none => some [s]
      else dictFind acc k' := by
  induction acc with
  | nil =>
    by_cases h : k = k'
    · subst h
      simp [add_to_group, dictFind]
    · simp [add_to_group, dictFind, h, fun hh : k' = k => h hh.symm]
  | cons e rest ih =>
    obtain ⟨k0, vs0⟩ := e
    by_cases h0 : k0 = k
    · subst h0
      by_cases h : k0 = k'
      · subst h
        simp [add_to_group, dictFind]
      · simp [add_to_group, dictFind, h]
    · by_cases h : k0 = k'
      · subst h
        have hne : ¬k = k0 := fun hh => h0 hh.symm
        simp [add_to_group, dictFind, h0, hne]
      · simp only [add_to_group, if_neg h0, dictFind, if_neg h]
        rw [ih]

theorem dictFind_isSome_iff_mem {α β : Type} [DecidableEq α] (d : List (α × β)) (k : α) :
    (dictFind d k).isSome = true ↔ k ∈ d.map Prod.fst := by
  induction d with
  | nil => simp [dictFind]
  | cons e rest ih =>
    obtain ⟨k0, v0⟩ := e
    by_cases h : k0 = k
    · subst h
      simp [dictFind]
    · have hne : ¬k = k0 := fun hh => h hh.symm
      simp only [dictFind, if_neg h, List.map_cons, List.mem_cons]
      rw [ih]
      constructor
      · intro hm
        exact Or.inr hm
      · rintro (hh | hm)
        · exact absurd hh hne
        · exact hm

theorem map_fst_add_to_group (acc : List ((String × String) × List String))
    (k : String × String) (s : String) :
    (add_to_group acc k s).map Prod.fst =
      if (dictFind acc k).isSome then acc.map Prod.fst else acc.map Prod.fst ++ [k] := by
  induction acc with
  | nil => simp [add_to_group, dictFind]
  | cons e rest ih =>
    obtain ⟨k0, vs0⟩ := e
    by_cases h0 : k0 = k
    · subst h0
      simp [add_to_group, dictFind]
    · simp only [add_to_group, if_neg h0, List.map_cons, dictFind,
        if_neg (fun hh : k0 = k => h0 hh)]
      rw [ih]
      by_cases hs : (dictFind rest k).isSome
      · rw [if_pos hs, if_pos hs]
      · rw [if_neg hs, if_neg hs]
        simp

theorem firstSeenKeys_congr :
    ∀ (l s₁ s₂ : List (String × String)), (∀ x, x ∈ s₁ ↔ x ∈ s₂) →
      firstSeenKeys s₁ l = firstSeenKeys s₂ l := by
  intro l
  induction l with
  | nil => intro s₁ s₂ _; rfl
  | cons k ks ih =>
    intro s₁ s₂ h
    by_cases hk : k ∈ s₁
    · rw [firstSeenKeys, firstSeenKeys, if_pos hk, if_pos ((h k).mp hk), ih s₁ s₂ h]
    · rw [firstSeenKeys, firstSeenKeys, if_neg hk, if_neg (fun hh => hk ((h k).mpr hh))]
      rw [ih (k :: s₁) (k :: s₂) (fun x => by simp [h x])]

theorem groupByKey_fold_find (k : String × String) :
    ∀ (recs : List (String × String × String)) (acc : List ((String × String) × List String)),
      dictFind (recs.foldl (fun a r => add_to_group a (recKey r) r.2.2) acc) k =
        match dictFind acc k with
        | some vs => some (vs ++ statementsFor recs k)
        | none =>
          if statementsFor recs k = [] then none else some (statementsFor recs k) := by
  intro recs
  induction recs with
  | nil =>
    intro acc
    match h : dictFind acc k with
    | some vs => simp [statementsFor, h]
    | none => simp [statementsFor, h]
  | cons r rest ih =>
    intro acc
    simp only [List.foldl_cons]
    rw [ih (add_to_group acc (recKey r) r.2.2)]
    rw [dictFind_add_to_group acc (recKey r) k r.2.2]
    by_cases hk : recKey r = k
    · subst hk
      have hstm : statementsFor (r :: rest) (recKey r) =
          r.2.2 :: statementsFor rest (recKey r) := by
        simp [statementsFor]
      rw [hstm, if_pos rfl]
      match h : dictFind acc (recKey r) with
      | some vs => simp
      | none => simp
    · have hstm : statementsFor (r :: rest) k = statementsFor rest k := by
        simp [statementsFor, hk]
      rw [hstm, if_neg hk]

theorem groupByKey_fold_keys :
    ∀ (recs : List (String × String × String)) (acc : List ((String × String) × List String)),
      (recs.foldl (fun a r => add_to_group a (recKey r) r.2.2) acc).map Prod.fst =
        acc.map Prod.fst ++ firstSeenKeys (acc.map Prod.fst) (recs.map recKey) := by
  intro recs
  induction recs with
  | nil =>
    intro acc
    simp [firstSeenKeys]
  | cons r rest ih =>
    intro acc
    simp only [List.foldl_cons, List.map_cons]
    rw [ih (add_to_group acc (recKey r) r.2.2)]
    rw [map_fst_add_to_group acc (recKey r) r.2.2]
    by_cases hs : (dictFind acc (recKey r)).isSome
    · rw [if_pos hs]
      have hmem : recKey r ∈ acc.map Prod.fst := (dictFind_isSome_iff_mem _ _).mp hs
      rw [firstSeenKeys, if_pos hmem]
    · rw [if_neg hs]
      have hmem : recKey r ∉ acc.map Prod.fst := fun hh =>
        hs ((dictFind_isSome_iff_mem _ _).mpr hh)
      rw [firstSeenKeys, if_neg hmem]
      rw [firstSeenKeys_congr (rest.map recKey) (acc.map Prod.fst ++ [recKey r])
        (recKey r :: acc.map Prod.fst) (fun x => by simp [or_comm])]
      simp

/-- C8: the grouped report maps each (policy name, compartment name) key
to the sequence of its statement texts, keys in first-seen order and
statements in original order, with no de-duplication (`statementsFor`
keeps every record, including repeated identical texts). -/
theorem report_grouping (recs : List (String × String × String)) :
    (groupByKey recs).map Prod.fst = firstSeenKeys [] (recs.map recKey) ∧
    ∀ k, dictFind (groupByKey recs) k =
      if statementsFor recs k = [] then none else some (statementsFor recs k) := by
  constructor
  · have := groupByKey_fold_keys recs []
    simpa [groupByKey] using this
  · intro k
    have := groupByKey_fold_find k recs []
    simpa [groupByKey, dictFind] using this

/-! ## Error handling of the group-fetch stage (claims C2 and C10) -/

/-- A gateway whose membership listing fails while every later stage
would have data to offer. -/
def gwC2 : Gateway where
  tenancy_id := "ocid1.tenancy.t"
  get_compartment := fun _ => .ok "Finance"
  list_compartments := .ok ["ocid1.compartment.fin"]
  list_user_group_memberships := fun _ => .error "AccessDenied"
  get_group := fun _ => .ok ⟨"g1", "Admins"⟩
  list_policies := fun _ =>
    .ok [⟨"FinPolicy", "ocid1.compartment.fin",
      ["allow group Admins to manage all-resources in tenancy"]⟩]

/-- C2 counterexample: the group fetch raises (`get_user_groups_body`
errors), yet the analysis does not abort on an unhandled error: the
exception is caught inside `get_user_groups`, which returns `[]`, and
the run ends normally with the no-groups outcome. -/
theorem group_fetch_error_absorbed_cex :
    get_user_groups_body gwC2 "ocid1.user.u" = .error "AccessDenied" ∧
    analyze_user_policies gwC2 "ocid1.user.u" = (AnalysisResult.noGroups, []) :=
  ⟨rfl, rfl⟩

/-- C2 (amended): a gateway failure while fetching the analyzed user's
group memberships is caught inside `get_user_groups`, which returns the
empty list; `analyze_user_policies` then terminates immediately with the
no-groups outcome, running no later stage (the result is independent of
every other gateway operation) and raising no error. -/
theorem group_fetch_error_no_groups (gw : Gateway) (user_id e : String)
    (h : gw.list_user_group_memberships user_id = .error e) :
    get_user_groups gw user_id = [] ∧
    analyze_user_policies gw user_id = (.noGroups, []) := by
  have hg : get_user_groups gw user_id = [] := by
    simp [get_user_groups, get_user_groups_body, h]
  exact ⟨hg, by simp [analyze_user_policies, hg]⟩

theorem group_fetch_error_no_groups_witness :
    get_user_groups gwC2 "ocid1.user.u" = [] ∧
    analyze_user_policies gwC2 "ocid1.user.u" = (.noGroups, []) :=
  group_fetch_error_no_groups gwC2 "ocid1.user.u" "AccessDenied" (by rfl)

theorem mapExcept_error_of_mem {A B : Type} (f : A → Except String B) :
    ∀ (l : List A) (a : A), a ∈ l → (∃ e, f a = .error e) →
      ∃ e, mapExcept f l = .error e := by
  intro l
  induction l with
  | nil =>
    intro a ha _
    simp at ha
  | cons b bs ih =>
    intro a ha he
    obtain ⟨e, hfa⟩ := he
    match hb : f b with
    | .error eb => exact ⟨eb, by simp [mapExcept, hb]⟩
    | .ok vb =>
      have hab : a ∈ bs := by
        rcases List.mem_cons.mp ha with rfl | hm
        · rw [hfa] at hb
          exact Except.noConfusion hb
        · exact hm
      obtain ⟨e', he'⟩ := ih a hab ⟨e, hfa⟩
      exact ⟨e', by simp [mapExcept, hb, he']⟩

/-- A gateway where one of the user's two memberships resolves and the
other raises. -/
def gwC10 : Gateway where
  tenancy_id := "ocid1.tenancy.t"
  get_compartment := fun _ => .ok "Other"
  list_compartments := .ok []
  list_user_group_memberships := fun _ => .ok ["g1", "g2"]
  get_group := fun gid => if gid = "g1" then .ok ⟨"g1", "Admins"⟩ else .error "NotFound"
  list_policies := fun _ => .ok []

/-- C10: if any single `get_group` call fails while resolving the
memberships, `get_user_groups` discards every group already fetched and
returns the empty list, so the analysis takes the no-groups terminal
outcome even though other memberships were resolvable. -/
theorem partial_group_fetch_discarded (gw : Gateway) (user_id gid e : String)
    (ids : List String) (h1 : gw.list_user_group_memberships user_id = .ok ids)
    (h2 : gid ∈ ids) (h3 : gw.get_group gid = .error e) :
    get_user_groups gw user_id = [] ∧
    analyze_user_policies gw user_id = (.noGroups, []) := by
  obtain ⟨e', he'⟩ := mapExcept_error_of_mem gw.get_group ids gid h2 ⟨e, h3⟩
  have hg : get_user_groups gw user_id = [] := by
    simp [get_user_groups, get_user_groups_body, h1, he']
  exact ⟨hg, by simp [analyze_user_policies, hg]⟩

theorem partial_group_fetch_discarded_witness :
    get_user_groups gwC10 "ocid1.user.u" = [] ∧
    analyze_user_policies gwC10 "ocid1.user.u" = (.noGroups, []) :=
  partial_group_fetch_discarded gwC10 "ocid1.user.u" "g2" "NotFound" ["g1", "g2"]
    (by rfl) (by decide) (by rfl)

/-! ## Per-compartment failure isolation (claim C7) -/

/-- C7: when one compartment's policy fetch fails while another's
succeeds with a relevant statement, the failing compartment contributes
an empty policy list and one warning naming it, the other compartment is
still scanned, and the run completes with a report containing the
successful compartment's result. -/
theorem scan_isolates_failures (gw : Gateway)
    (user_id gid gname cidF cidS e pname stmt cname : String)
    (hmem : gw.list_user_group_memberships user_id = .ok [gid])
    (hgrp : gw.get_group gid = .ok ⟨gid, gname⟩)
    (hcomps : gw.list_compartments = .ok [cidF, cidS])
    (hpolF : gw.list_policies cidF = .error e)
    (hpolS : gw.list_policies cidS = .ok [⟨pname, cidS, [stmt]⟩])
    (hpolT : gw.list_policies gw.tenancy_id = .ok [])
    (hcs : cidS ≠ gw.tenancy_id)
    (hname : gw.get_compartment cidS = .ok cname)
    (hrel : statementMentionsGroup stmt [gname] = true) :
    ∃ ts, analyze_user_policies gw user_id =
      (.report [((pname, cname), [ts])],
       ["Warning: Could not fetch policies in compartment " ++ cidF ++ ": " ++ e]) := by
  have h_groups : get_user_groups gw user_id = [⟨gid, gname⟩] := by
    simp [get_user_groups, get_user_groups_body, hmem, mapExcept, hgrp]
  have h_r0 : get_compartment_name gw ⟨[], 0⟩ cidS = (⟨[(cidS, cname)], 1⟩, cname) := by
    rw [get_compartment_name_ok gw ⟨[], 0⟩ cidS cname (by rfl) hcs hname]
    rfl
  refine ⟨(translate_compartment_ids_in_statement gw ⟨[(cidS, cname)], 1⟩ stmt).2, ?_⟩
  simp only [analyze_user_policies, h_groups, List.isEmpty_cons, Bool.false_eq_true,
    if_false, List.map_cons, List.map_nil, get_all_compartments, hcomps,
    List.cons_append, List.nil_append, scan_compartments, get_policies_in_compartment,
    hpolF, hpolS, hpolT, filter_policies_for_groups, h_r0, filter_statements, hrel,
    if_true, List.append_nil, groupByKey, List.foldl_cons, List.foldl_nil,
    add_to_group, recKey]

/-- A gateway where compartment `ops`'s policy fetch fails while
compartment `fin` has one policy with a relevant statement. -/
def gwC7 : Gateway where
  tenancy_id := "ocid1.tenancy.t"
  get_compartment := fun cid =>
    if cid = "ocid1.compartment.fin" then .ok "Finance" else .error "NotFound"
  list_compartments := .ok ["ocid1.compartment.ops", "ocid1.compartment.fin"]
  list_user_group_memberships := fun _ => .ok ["g1"]
  get_group := fun gid => if gid = "g1" then .ok ⟨"g1", "Admins"⟩ else .error "NotFound"
  list_policies := fun cid =>
    if cid = "ocid1.compartment.fin" then
      .ok [⟨"FinPolicy", "ocid1.compartment.fin",
        ["allow group Admins to manage all-resources in tenancy"]⟩]
    else if cid = "ocid1.compartment.ops" then .error "ServiceError"
    else .ok []

theorem scan_isolates_failures_witness :
    ∃ ts, analyze_user_policies gwC7 "ocid1.user.u" =
      (.report [(("FinPolicy", "Finance"), [ts])],
       ["Warning: Could not fetch policies in compartment " ++ "ocid1.compartment.ops" ++
        ": " ++ "ServiceError"]) :=
  scan_isolates_failures gwC7 "ocid1.user.u" "g1" "Admins" "ocid1.compartment.ops"
    "ocid1.compartment.fin" "ServiceError" "FinPolicy"
    "allow group Admins to manage all-resources in tenancy" "Finance"
    (by rfl) (by rfl) (by rfl) (by rfl) (by rfl) (by rfl) (by decide)
    (by rfl) (by decide)

end OCIPolicyAnalyzer
